import Mathlib

/-!
Verification of the bustie backend (bus 80 tracker) against its
natural-language specification.

The development shallowly embeds the TypeScript sources:
ovapi.ts (scheduled departure fetcher), polling.ts and the collector
(poll loops, backoff, staleness detection, departed derivation),
db.ts (stop-time retrieval), gtfs-extract.ts (reference data refresh)
and the departures route (reconciliation, leave-by computation).

JavaScript Date semantics are modelled for a fixed-offset timezone:
an instant is an integer count of milliseconds since the Unix epoch,
civil (wall-clock) fields are obtained through a proleptic Gregorian
calendar, and naive "YYYY-MM-DDTHH:MM:SS" strings are parsed and
rendered against a constant UTC offset.  Daylight-saving transitions
are outside the model.
-/

namespace Bustie

/-! ## Gregorian calendar model (JS Date semantics, fixed offset) -/

/-- A civil date: year, month (1-12), day (1-based). -/
structure CivilDate where
  year : Nat
  month : Nat
  day : Nat
deriving DecidableEq, Repr

/-- Gregorian leap-year rule. -/
def isLeap (y : Nat) : Bool :=
  (y % 4 == 0 && y % 100 != 0) || y % 400 == 0

/-- Number of days in a month of a given year; 0 for month 0 or months above 12. -/
def daysInMonth (y m : Nat) : Nat :=
  match m with
  | 1 => 31
  | 2 => if isLeap y then 29 else 28
  | 3 => 31
  | 4 => 30
  | 5 => 31
  | 6 => 30
  | 7 => 31
  | 8 => 31
  | 9 => 30
  | 10 => 31
  | 11 => 30
  | 12 => 31
  | _ => 0

/-- Days contained in the months strictly before month `m` of year `y`. -/
def monthDaysBefore (y : Nat) (m : Nat) : Nat :=
  let L : Nat := if isLeap y then 1 else 0
  match m with
  | 1 => 0
  | 2 => 31
  | 3 => 59 + L
  | 4 => 90 + L
  | 5 => 120 + L
  | 6 => 151 + L
  | 7 => 181 + L
  | 8 => 212 + L
  | 9 => 243 + L
  | 10 => 273 + L
  | 11 => 304 + L
  | 12 => 334 + L
  | _ => 0

/-- One-based ordinal of a civil date within its year. -/
def dayOfYear (c : CivilDate) : Nat :=
  monthDaysBefore c.year c.month + c.day

/-- Total days in the years 1..y of the proleptic Gregorian calendar. -/
def daysUpToYear (y : Nat) : Nat :=
  365 * y + (y / 4 - y / 100) + y / 400

/-- One-based day number of a civil date counted from 0001-01-01. -/
def dayNumber (c : CivilDate) : Nat :=
  daysUpToYear (c.year - 1) + dayOfYear c

/-- Day number of the Unix epoch 1970-01-01. -/
def epochDayNumber : Nat := 719163

/-- A civil date is valid when the month is 1-12 and the day fits the month. -/
def ValidDate (c : CivilDate) : Prop :=
  1 ≤ c.month ∧ c.month ≤ 12 ∧ 1 ≤ c.day ∧ c.day ≤ daysInMonth c.year c.month ∧ 1 ≤ c.year

instance (c : CivilDate) : Decidable (ValidDate c) := by
  unfold ValidDate; infer_instance

/-- Civil successor of a date: the next calendar day. -/
def nextDay (c : CivilDate) : CivilDate :=
  if c.day < daysInMonth c.year c.month then
    ⟨c.year, c.month, c.day + 1⟩
  else if c.month < 12 then
    ⟨c.year, c.month + 1, 1⟩
  else
    ⟨c.year + 1, 1, 1⟩

/-- Civil date reached `n` days after the Unix epoch 1970-01-01. -/
def civilOfEpochDay : Nat → CivilDate
  | 0 => ⟨1970, 1, 1⟩
  | n + 1 => nextDay (civilOfEpochDay n)

theorem isLeap_iff (y : Nat) :
    isLeap y = true ↔ (y % 4 = 0 ∧ y % 100 ≠ 0) ∨ y % 400 = 0 := by
  unfold isLeap
  simp [Bool.or_eq_true, Bool.and_eq_true, Nat.beq_eq, bne_iff_ne]

theorem daysUpToYear_succ (y : Nat) :
    daysUpToYear (y + 1) = daysUpToYear y + 365 + (if isLeap (y + 1) then 1 else 0) := by
  unfold daysUpToYear
  by_cases h : isLeap (y + 1) = true
  · rw [if_pos h]
    rw [isLeap_iff] at h
    omega
  · rw [if_neg h]
    rw [isLeap_iff] at h
    push_neg at h
    omega

theorem monthDaysBefore_succ (y m : Nat) (h1 : 1 ≤ m) (h2 : m ≤ 11) :
    monthDaysBefore y (m + 1) = monthDaysBefore y m + daysInMonth y m := by
  interval_cases m <;>
    simp only [monthDaysBefore, daysInMonth] <;> split <;> omega

theorem monthDaysBefore_twelve (y : Nat) :
    monthDaysBefore y 12 + daysInMonth y 12 = 365 + (if isLeap y then 1 else 0) := by
  simp only [monthDaysBefore, daysInMonth]
  split <;> omega

theorem dayNumber_nextDay (c : CivilDate) (h : ValidDate c) :
    dayNumber (nextDay c) = dayNumber c + 1 := by
  obtain ⟨hm1, hm12, hd1, hdm, hy⟩ := h
  unfold nextDay
  by_cases hlt : c.day < daysInMonth c.year c.month
  · rw [if_pos hlt]
    show daysUpToYear (c.year - 1) + (monthDaysBefore c.year c.month + (c.day + 1))
        = daysUpToYear (c.year - 1) + (monthDaysBefore c.year c.month + c.day) + 1
    omega
  · rw [if_neg hlt]
    have hde : c.day = daysInMonth c.year c.month := by omega
    by_cases hm : c.month < 12
    · rw [if_pos hm]
      show daysUpToYear (c.year - 1) + (monthDaysBefore c.year (c.month + 1) + 1)
          = daysUpToYear (c.year - 1) + (monthDaysBefore c.year c.month + c.day) + 1
      have hb := monthDaysBefore_succ c.year c.month hm1 (by omega)
      omega
    · rw [if_neg hm]
      have hm12' : c.month = 12 := by omega
      show daysUpToYear (c.year + 1 - 1) + (monthDaysBefore (c.year + 1) 1 + 1)
          = daysUpToYear (c.year - 1) + (monthDaysBefore c.year c.month + c.day) + 1
      have hmb1 : monthDaysBefore (c.year + 1) 1 = 0 := rfl
      have hmb := monthDaysBefore_twelve c.year
      have hsucc := daysUpToYear_succ (c.year - 1)
      have hyy : c.year - 1 + 1 = c.year := by omega
      rw [hyy] at hsucc
      rw [hm12'] at hde hdm ⊢
      have hE : c.year + 1 - 1 = c.year := by omega
      rw [hmb1, hE]
      by_cases hL : isLeap c.year = true <;>
        simp only [hL, if_true, if_false] at hmb hsucc <;> omega

theorem one_le_daysInMonth (y m : Nat) (h1 : 1 ≤ m) (h2 : m ≤ 12) :
    1 ≤ daysInMonth y m := by
  interval_cases m <;> simp only [daysInMonth] <;> first | omega | (split <;> omega)

theorem validDate_nextDay (c : CivilDate) (h : ValidDate c) : ValidDate (nextDay c) := by
  obtain ⟨hm1, hm12, hd1, hdm, hy⟩ := h
  unfold nextDay
  by_cases hlt : c.day < daysInMonth c.year c.month
  · rw [if_pos hlt]
    exact ⟨hm1, hm12, by show 1 ≤ c.day + 1; omega,
      by show c.day + 1 ≤ daysInMonth c.year c.month; omega, hy⟩
  · rw [if_neg hlt]
    by_cases hm : c.month < 12
    · rw [if_pos hm]
      refine ⟨by show 1 ≤ c.month + 1; omega, by show c.month + 1 ≤ 12; omega,
        le_refl 1, ?_, hy⟩
      show 1 ≤ daysInMonth c.year (c.month + 1)
      exact one_le_daysInMonth c.year (c.month + 1) (by omega) (by omega)
    · rw [if_neg hm]
      exact ⟨le_refl 1, by show (1:Nat) ≤ 12; omega, le_refl 1,
        by show 1 ≤ daysInMonth (c.year + 1) 1; simp [daysInMonth],
        by show 1 ≤ c.year + 1; omega⟩

theorem civilOfEpochDay_spec (n : Nat) :
    ValidDate (civilOfEpochDay n) ∧
      dayNumber (civilOfEpochDay n) = n + epochDayNumber ∧
      1970 ≤ (civilOfEpochDay n).year := by
  induction n with
  | zero =>
      refine ⟨by decide, by decide, by decide⟩
  | succ k ih =>
      obtain ⟨hv, hd, hy⟩ := ih
      refine ⟨validDate_nextDay _ hv, ?_, ?_⟩
      · show dayNumber (nextDay (civilOfEpochDay k)) = k + 1 + epochDayNumber
        rw [dayNumber_nextDay _ hv, hd]; omega
      · show 1970 ≤ (nextDay (civilOfEpochDay k)).year
        unfold nextDay
        split
        · exact hy
        · split <;> simpa using by omega

/-- Lower bound for day numbers: every year before `c.year` has at least 365 days. -/
theorem dayNumber_ge (c : CivilDate) (h : ValidDate c) :
    365 * (c.year - 1) + 1 ≤ dayNumber c := by
  obtain ⟨hm1, hm12, hd1, hdm, hy⟩ := h
  unfold dayNumber daysUpToYear dayOfYear
  omega

/-- Years stay below 10000 for epoch days below three million. -/
theorem civilOfEpochDay_year_le (n : Nat) (hn : n ≤ 2900000) :
    (civilOfEpochDay n).year ≤ 9999 := by
  obtain ⟨hv, hd, _⟩ := civilOfEpochDay_spec n
  have := dayNumber_ge _ hv
  unfold epochDayNumber at hd
  omega

/-! ## Naive datetimes, epoch milliseconds, and the string format -/

/-- A naive wall-clock datetime (no timezone attached). -/
structure NaiveDateTime where
  date : CivilDate
  hour : Nat
  minute : Nat
  second : Nat
deriving DecidableEq, Repr

/-- Milliseconds between the Unix epoch and a naive datetime read on a naive timeline. -/
def naiveMs (dt : NaiveDateTime) : Int :=
  ((dayNumber dt.date : Int) - epochDayNumber) * 86400000
    + dt.hour * 3600000 + dt.minute * 60000 + dt.second * 1000

/-- Naive datetime at `n` milliseconds past the epoch (nonnegative case). -/
def ofNaiveMsN (n : Nat) : NaiveDateTime :=
  ⟨civilOfEpochDay (n / 86400000),
    n % 86400000 / 3600000, n % 3600000 / 60000, n % 60000 / 1000⟩

/-- Naive datetime of an epoch-millisecond value; negative values are clamped. -/
def ofNaiveMs (t : Int) : NaiveDateTime := ofNaiveMsN t.toNat

/-- Two-digit zero-padded decimal rendering, as in padStart of the source. -/
def pad2 (n : Nat) : List Char :=
  [Nat.digitChar (n / 10 % 10), Nat.digitChar (n % 10)]

/-- Four-digit decimal rendering for years. -/
def pad4 (n : Nat) : List Char :=
  [Nat.digitChar (n / 1000 % 10), Nat.digitChar (n / 100 % 10),
    Nat.digitChar (n / 10 % 10), Nat.digitChar (n % 10)]

/-- The "YYYY-MM-DDTHH:MM:SS" rendering used both by toLocalTimeString
(sv-SE toLocaleString with the space replaced by T) and by the leave-by
formatter built from getFullYear and friends. -/
def renderChars (dt : NaiveDateTime) : List Char :=
  pad4 dt.date.year ++ '-' :: pad2 dt.date.month ++ '-' :: pad2 dt.date.day
    ++ 'T' :: pad2 dt.hour ++ ':' :: pad2 dt.minute ++ ':' :: pad2 dt.second

/-- String form of `renderChars`. -/
def renderNaive (dt : NaiveDateTime) : String := String.mk (renderChars dt)

/-- Numeric value of a decimal digit character. -/
def digitVal (ch : Char) : Nat := ch.toNat - 48

/-- Parser for the naive "YYYY-MM-DDTHH:MM:SS" format. -/
def parseNaive (s : String) : Option NaiveDateTime :=
  match s.toList with
  | [y1, y2, y3, y4, a1, m1, m2, a2, d1, d2, a3, h1, h2, a4, i1, i2, a5, s1, s2] =>
    if (y1.isDigit && y2.isDigit && y3.isDigit && y4.isDigit
        && m1.isDigit && m2.isDigit && d1.isDigit && d2.isDigit
        && h1.isDigit && h2.isDigit && i1.isDigit && i2.isDigit
        && s1.isDigit && s2.isDigit
        && (a1 == '-') && (a2 == '-') && (a3 == 'T') && (a4 == ':') && (a5 == ':')) then
      some ⟨⟨((digitVal y1 * 10 + digitVal y2) * 10 + digitVal y3) * 10 + digitVal y4,
             digitVal m1 * 10 + digitVal m2,
             digitVal d1 * 10 + digitVal d2⟩,
            digitVal h1 * 10 + digitVal h2,
            digitVal i1 * 10 + digitVal i2,
            digitVal s1 * 10 + digitVal s2⟩
    else none
  | _ => none

/-- Naive epoch milliseconds denoted by a naive datetime string. -/
def parseNaiveMs (s : String) : Option Int := (parseNaive s).map naiveMs

/-- JS "new Date(s).getTime()" for a naive local string, in a timezone that is a
fixed offset of `o` milliseconds east of UTC; invalid strings default to 0. -/
def jsParseLocalMs (o : Int) (s : String) : Int :=
  ((parseNaiveMs s).map (· - o)).getD 0

/-- JS local formatting of an epoch-millisecond instant at fixed offset `o`:
the composition of the local field getters with the padding concatenation. -/
def jsFormatLocal (o : Int) (t : Int) : String := renderNaive (ofNaiveMs (t + o))

theorem digitChar_isDigit (k : Nat) (h : k < 10) : (Nat.digitChar k).isDigit = true := by
  interval_cases k <;> decide

theorem digitVal_digitChar (k : Nat) (h : k < 10) : digitVal (Nat.digitChar k) = k := by
  interval_cases k <;> decide

theorem digitChar_ne_Z (k : Nat) (h : k < 10) : Nat.digitChar k ≠ 'Z' := by
  interval_cases k <;> decide

theorem parseNaive_renderNaive (dt : NaiveDateTime)
    (hy : dt.date.year ≤ 9999) (hm : dt.date.month ≤ 99) (hd : dt.date.day ≤ 99)
    (hh : dt.hour ≤ 99) (hi : dt.minute ≤ 99) (hs : dt.second ≤ 99) :
    parseNaive (renderNaive dt) = some dt := by
  have hch : (renderNaive dt).toList = renderChars dt := rfl
  unfold parseNaive
  rw [hch]
  unfold renderChars pad4 pad2
  simp only [List.cons_append, List.nil_append]
  have t10 : ∀ n : Nat, n % 10 < 10 := fun n => Nat.mod_lt _ (by norm_num)
  simp only [digitChar_isDigit _ (t10 _), Bool.and_true, Bool.true_and]
  norm_num
  simp only [digitVal_digitChar _ (t10 _)]
  obtain ⟨⟨y, m, d⟩, hr, mi, sc⟩ := dt
  simp only [NaiveDateTime.mk.injEq, CivilDate.mk.injEq] at *
  refine ⟨⟨?_, ?_, ?_⟩, ?_, ?_, ?_⟩ <;> omega

/-- Every character the renderer emits is a digit or one of the three separators. -/
theorem renderChars_shape (dt : NaiveDateTime) :
    ∀ ch ∈ renderChars dt, ch.isDigit = true ∨ ch = '-' ∨ ch = 'T' ∨ ch = ':' := by
  intro ch hmem
  have t10 : ∀ n : Nat, n % 10 < 10 := fun n => Nat.mod_lt _ (by norm_num)
  simp only [renderChars, pad4, pad2, List.cons_append, List.nil_append,
    List.mem_cons, List.not_mem_nil, or_false] at hmem
  rcases hmem with h | h | h | h | h | h | h | h | h | h | h | h | h | h | h | h | h | h | h <;>
    subst h <;>
    first
      | exact Or.inl (digitChar_isDigit _ (t10 _))
      | simp

/-- The rendered string never carries a Z or any UTC suffix. -/
theorem Z_not_mem_renderNaive (dt : NaiveDateTime) : 'Z' ∉ (renderNaive dt).toList := by
  intro hmem
  rcases renderChars_shape dt 'Z' hmem with h | h | h | h <;> simp_all

theorem daysInMonth_le (y m : Nat) : daysInMonth y m ≤ 31 := by
  unfold daysInMonth
  split <;> first | omega | (split <;> omega)

theorem naiveMs_ofNaiveMsN (n : Nat) (hms : n % 1000 = 0) :
    naiveMs (ofNaiveMsN n) = n := by
  unfold naiveMs ofNaiveMsN
  obtain ⟨hv, hdn, hy1970⟩ := civilOfEpochDay_spec (n / 86400000)
  show ((dayNumber (civilOfEpochDay (n / 86400000)) : Int) - epochDayNumber) * 86400000
      + (n % 86400000 / 3600000 : Nat) * 3600000 + (n % 3600000 / 60000 : Nat) * 60000
      + (n % 60000 / 1000 : Nat) * 1000 = n
  rw [hdn]
  unfold epochDayNumber
  push_cast
  omega

/-- Field bounds of the decoded naive datetime, for epoch values up to
250560000000000 ms (about the year 4909). -/
theorem ofNaiveMsN_bounds (n : Nat) (hb : n ≤ 250560000000000) :
    (ofNaiveMsN n).date.year ≤ 9999 ∧ (ofNaiveMsN n).date.month ≤ 99 ∧
      (ofNaiveMsN n).date.day ≤ 99 ∧ (ofNaiveMsN n).hour ≤ 99 ∧
      (ofNaiveMsN n).minute ≤ 99 ∧ (ofNaiveMsN n).second ≤ 99 := by
  obtain ⟨hv, hdn, hy1970⟩ := civilOfEpochDay_spec (n / 86400000)
  obtain ⟨hm1, hm12, hd1, hdm, hy⟩ := hv
  have hyle : (civilOfEpochDay (n / 86400000)).year ≤ 9999 :=
    civilOfEpochDay_year_le _ (by omega)
  have hdle := daysInMonth_le (civilOfEpochDay (n / 86400000)).year
    (civilOfEpochDay (n / 86400000)).month
  refine ⟨hyle, ?_, ?_, ?_, ?_, ?_⟩
  · show (civilOfEpochDay (n / 86400000)).month ≤ 99
    omega
  · show (civilOfEpochDay (n / 86400000)).day ≤ 99
    omega
  · show n % 86400000 / 3600000 ≤ 99
    omega
  · show n % 3600000 / 60000 ≤ 99
    omega
  · show n % 60000 / 1000 ≤ 99
    omega

/-- Re-parsing a locally formatted instant recovers the shifted naive value:
format then parse is exact on second-aligned instants in the model range. -/
theorem parseNaiveMs_jsFormatLocal (o t : Int) (h0 : 0 ≤ t + o)
    (hb : t + o ≤ 250560000000000) (hms : (t + o) % 1000 = 0) :
    parseNaiveMs (jsFormatLocal o t) = some (t + o) := by
  unfold jsFormatLocal ofNaiveMs parseNaiveMs
  have hbn : (t + o).toNat ≤ 250560000000000 := by omega
  have hmsn : (t + o).toNat % 1000 = 0 := by omega
  obtain ⟨b1, b2, b3, b4, b5, b6⟩ := ofNaiveMsN_bounds (t + o).toNat hbn
  rw [parseNaive_renderNaive _ b1 b2 b3 b4 b5 b6]
  rw [Option.map_some']
  rw [naiveMs_ofNaiveMsN _ hmsn]
  congr 1
  omega

/-- Defaulted naive parse (invalid strings parse to 0 in place of NaN). -/
def parseNaiveMsD (s : String) : Int := (parseNaiveMs s).getD 0

/-- JS Math.round applied to the fraction num/den, den positive:
floor of the fraction plus one half. -/
def jsRoundDiv (num den : Int) : Int := Int.fdiv (2 * num + den) (2 * den)

/-! ## config.ts -/

/-- Configuration constants relevant to the embedded services.  The operator
filter value is the CXX code (spelled operatorCode in the config file and read
as dataOwnerCode by the fetcher; the fetcher tests pin the value CXX). -/
structure Config where
  dataOwnerCode : String
  linePublicNumber : String
  defaultTpc : String
  defaultDirection : Int
  vehiclePollInterval : Int
  departurePollInterval : Int
  stalenessThreshold : Nat
deriving DecidableEq, Repr

def config : Config :=
  ⟨"CXX", "80", "55230110", 1, 30000, 30000, 5⟩

/-! ## ovapi.ts - scheduled departure fetcher -/

/-- One passage record of the source A response (OvApiPass).  String fields
that the upstream may omit are modelled with the empty string as the falsy
absent value, matching the truthiness tests of the source. -/
structure OvApiPass where
  dataOwnerCode : String
  linePublicNumber : String
  linePlanningNumber : String
  lineDirection : Int
  destinationName50 : String
  journeyNumber : Int
  timingPointCode : String
  timingPointName : String
  latitude : Rat
  longitude : Rat
  targetArrivalTime : String
  targetDepartureTime : String
  expectedArrivalTime : String
  expectedDepartureTime : String
  tripStopStatus : String
  transportType : String
deriving DecidableEq, Repr

structure Departure where
  journeyNumber : Int
  scheduledDeparture : String
  expectedDeparture : String
  delayMinutes : Int
  status : String
  isDelayed : Bool
  destination : String
  lineDirection : Int
deriving DecidableEq, Repr

structure StopInfo where
  name : String
  tpc : String
  latitude : Rat
  longitude : Rat
deriving DecidableEq, Repr

structure DepartureResult where
  stop : Option StopInfo
  departures : List Departure
  timestamp : String
deriving DecidableEq, Repr

/-- JS string truthiness fallback `a || b`. -/
def strOr (a b : String) : String := if a = "" then b else a

/-- The filter of the fetcher loop: only CXX bus 80, not the N286 night bus,
transport type BUS, and a truthy DataOwnerCode. -/
def passKeep (p : OvApiPass) : Bool :=
  p.dataOwnerCode != "" && p.dataOwnerCode == config.dataOwnerCode
    && p.linePublicNumber == config.linePublicNumber
    && p.linePlanningNumber != "N286"
    && p.transportType == "BUS"

/-- The departure built from one retained pass; none when the pass has no
scheduled time.  Time arithmetic: the code subtracts two local-string parses,
so the constant local offset cancels and naive parses are exact. -/
def departureOfPass (p : OvApiPass) : Option Departure :=
  let scheduled := strOr p.targetDepartureTime p.targetArrivalTime
  if scheduled = "" then none
  else
    let expected := strOr p.expectedDepartureTime p.expectedArrivalTime
    let scheduledMs := parseNaiveMsD scheduled
    let expectedMs := if expected = "" then scheduledMs else parseNaiveMsD expected
    let delayMinutes := jsRoundDiv (expectedMs - scheduledMs) 60000
    some ⟨p.journeyNumber, scheduled, strOr expected scheduled, delayMinutes,
      p.tripStopStatus, decide (delayMinutes ≥ 1), p.destinationName50, p.lineDirection⟩

/-- The stop info captured from the first retained pass. -/
def stopInfoOfPass (tpc : String) (p : OvApiPass) : StopInfo :=
  ⟨p.timingPointName, strOr p.timingPointCode tpc, p.latitude, p.longitude⟩

/-- The fetcher loop over the pass entries, threading the first-stop capture. -/
def collectPasses (tpc : String) : List OvApiPass → Option StopInfo → Option StopInfo × List Departure
  | [], si => (si, [])
  | p :: rest, si =>
    if passKeep p then
      let si' := match si with
        | some s => some s
        | none => some (stopInfoOfPass tpc p)
      let (siF, deps) := collectPasses tpc rest si'
      match departureOfPass p with
      | some d => (siF, d :: deps)
      | none => (siF, deps)
    else
      collectPasses tpc rest si

/-- Sorting by expected departure time, as the comparator of the source does
by subtracting the two parsed times (constant offsets cancel). -/
def sortByExpected (l : List Departure) : List Departure :=
  List.insertionSort
    (fun a b => parseNaiveMsD a.expectedDeparture ≤ parseNaiveMsD b.expectedDeparture) l

/-- The per-stop payload under one timing point code: the passes may sit under
a Passes wrapper key or directly at the timing point level. -/
inductive TpcData where
  | withPassesKey (passes : List OvApiPass)
  | plain (passes : List OvApiPass)
deriving DecidableEq, Repr

def TpcData.passes : TpcData → List OvApiPass
  | .withPassesKey ps => ps
  | .plain ps => ps

/-- The upstream interaction outcome seen by fetchDepartures: either the
network request fails, or an HTTP response arrives with a success flag,
status code and parsed JSON body (an association of timing point codes to
possibly-null payloads). -/
inductive UpstreamResponse where
  | netError (msg : String)
  | httpResponse (ok : Bool) (status : Nat) (body : List (String × Option TpcData))
deriving DecidableEq, Repr

/-- fetchDepartures of ovapi.ts: throws (error) on network failure and on
non-ok HTTP status; an ok response whose body has no truthy data for the
requested code yields a null stop and no departures. -/
def fetchDepartures (tpc : String) (nowIso : String) :
    UpstreamResponse → Except String DepartureResult
  | .netError m => .error m
  | .httpResponse ok status body =>
    if !ok then .error ("OVapi returned " ++ toString status ++ " for TPC " ++ tpc)
    else
      match body.lookup tpc with
      | none => .ok ⟨none, [], nowIso⟩
      | some none => .ok ⟨none, [], nowIso⟩
      | some (some td) =>
        let (si, deps) := collectPasses tpc td.passes none
        .ok ⟨si, sortByExpected deps, nowIso⟩

/-! ## Departures route - reconciliation (merge of source A and source B) -/

/-- A realtime arrival served to the route by getArrivalsForStop. -/
structure RealtimeArrival where
  tripId : String
  arrivalTime : Int
  delay : Int
  departed : Bool
deriving DecidableEq, Repr

/-- toLocalTimeString of the route file: format an epoch-millisecond value as
a naive local string at the fixed Amsterdam offset `oAms`. -/
def toLocalTimeString (oAms : Int) (unixMs : Int) : String := jsFormatLocal oAms unixMs

/-- The implied scheduled time of a prediction (arrival time minus delay),
rendered as a local string and compared with the scheduled-departure string;
the two parses happen at the same server offset, which cancels. -/
def rtDiff (oAms : Int) (scheduledLocal : String) (rt : RealtimeArrival) : Int :=
  let rtScheduledLocal := toLocalTimeString oAms ((rt.arrivalTime - rt.delay) * 1000)
  |parseNaiveMsD rtScheduledLocal - parseNaiveMsD scheduledLocal|

/-- The best difference held by the accumulator of the closest-match scan;
the starting Infinity of the source behaves like the ten-minute window bound
because every accepted candidate lies under the window. -/
def mBound : Option (Nat × RealtimeArrival × Int) → Int
  | none => 600000
  | some (_, _, d) => d

/-- The closest-match search of the route: scan the arrivals keeping the
first strictly-best candidate under the ten-minute window (the source
condition d below ten minutes and d below the best difference so far equals
d below the minimum of the two).  The accumulator carries the candidate
index, the arrival and its difference. -/
def bestMatchLoop (oAms : Int) (sched : String) :
    List RealtimeArrival → Nat → Option (Nat × RealtimeArrival × Int) →
      Option (Nat × RealtimeArrival × Int)
  | [], _, acc => acc
  | rt :: rest, i, acc =>
    bestMatchLoop oAms sched rest (i + 1)
      (if rtDiff oAms sched rt < min 600000 (mBound acc)
        then some (i, rt, rtDiff oAms sched rt) else acc)

/-- Which prediction (by position in the arrivals list) a scheduled departure
claims, if any. -/
def claimedIdx (oAms : Int) (rts : List RealtimeArrival) (dep : Departure) : Option Nat :=
  (bestMatchLoop oAms dep.scheduledDeparture rts 0 none).map (·.1)

/-- The overwrite applied to one departure when a prediction matches, and the
trip id recorded into the matched set. -/
def applyMatch (oAms : Int) (rts : List RealtimeArrival) (dep : Departure) :
    (Departure × String) × Option String :=
  match bestMatchLoop oAms dep.scheduledDeparture rts 0 none with
  | some (_, rt, _) =>
    let dm := jsRoundDiv rt.delay 60
    (({ dep with
        expectedDeparture := toLocalTimeString oAms (rt.arrivalTime * 1000),
        delayMinutes := dm,
        isDelayed := decide (dm ≥ 1) }, "realtime"), some rt.tripId)
  | none => ((dep, "scheduled"), none)

/-- Matching pass over the direction-filtered departures, producing the
annotated departures and the set of claimed trip ids. -/
def matchDepartures (oAms : Int) (rts : List RealtimeArrival) (deps : List Departure) :
    List (Departure × String) × List String :=
  let pairs := deps.map (applyMatch oAms rts)
  (pairs.map (·.1), pairs.filterMap (·.2))

/-- Direction-default destination used for synthesized entries. -/
def defaultDestination (direction : Int) : String :=
  if direction = 1 then "Amsterdam Elandsgracht" else "Zandvoort Centrum"

/-- Injection of predictions whose trip was not claimed: synthetic departures
with journey number 0. -/
def injectUnmatched (oAms : Int) (direction : Int) (matched : List String)
    (rts : List RealtimeArrival) : List (Departure × String) :=
  (rts.filter (fun rt => !(matched.contains rt.tripId))).map (fun rt =>
    (⟨0, toLocalTimeString oAms ((rt.arrivalTime - rt.delay) * 1000),
      toLocalTimeString oAms (rt.arrivalTime * 1000),
      jsRoundDiv rt.delay 60, "DRIVING", decide (rt.delay ≥ 60),
      defaultDestination direction, direction⟩, "realtime"))

/-- Re-sort of the merged list by expected time (the comparator subtracts two
parses at the same offset, which cancels). -/
def sortMergedByExpected (l : List (Departure × String)) : List (Departure × String) :=
  List.insertionSort
    (fun a b => parseNaiveMsD a.1.expectedDeparture ≤ parseNaiveMsD b.1.expectedDeparture) l

/-- A merged departure as the route responds: the departure fields, the data
source marker, and the computed leave-by time. -/
structure MergedDeparture where
  dep : Departure
  source : String
  leaveBy : Option String
deriving DecidableEq, Repr

/-- leave-by: null for non-positive walk times, otherwise the expected time
parsed at the server offset, shifted back by the walk time in minutes and
re-rendered with the local field getters at the same server offset. -/
def leaveByFor (oServ : Int) (walkTime : Int) (expectedStr : String) : Option String :=
  if walkTime ≤ 0 then none
  else some (jsFormatLocal oServ (jsParseLocalMs oServ expectedStr - walkTime * 60000))

/-- The whole reconciliation pipeline of the departures route for one query:
direction filter, realtime matching, injection of unclaimed predictions,
re-sort, and leave-by computation.  `oServ` is the fixed offset of the server
timezone, `oAms` the fixed offset used by toLocalTimeString. -/
def reconcileDepartures (oServ oAms : Int) (direction walkTime : Int)
    (deps : List Departure) (rts : List RealtimeArrival) : List MergedDeparture :=
  let filtered := deps.filter (fun d => d.lineDirection == direction)
  let (annotated, matched) := matchDepartures oAms rts filtered
  let full := annotated ++ injectUnmatched oAms direction matched rts
  let sorted := sortMergedByExpected full
  sorted.map (fun p => ⟨p.1, p.2, leaveByFor oServ walkTime p.1.expectedDeparture⟩)

/-! ## polling collector - departed derivation (trip updates) -/

/-- One per-stop prediction of a trip update. -/
structure StopTimeUpdate where
  stopId : String
  stopSequence : Int
  arrivalTime : Option Int
  arrivalDelay : Int
  departureTime : Option Int
  departureDelay : Int
deriving DecidableEq, Repr

/-- One trip update of the source B feed. -/
structure TripUpdate where
  tripId : String
  directionId : Option Int
  stopTimeUpdates : List StopTimeUpdate
deriving DecidableEq, Repr

/-- The time the derivation reads for a stop: arrival, falling back to
departure when the arrival is null. -/
def stuTime (stu : StopTimeUpdate) : Option Int :=
  match stu.arrivalTime with
  | some t => some t
  | none => stu.departureTime

/-- A stop still pending at `now`: its time exists and lies beyond the
60-second grace window. -/
def isPending (now : Int) (stu : StopTimeUpdate) : Bool :=
  match stuTime stu with
  | some t => decide (t > now - 60)
  | none => false

/-- Sorting the stop updates by stop sequence before the scan. -/
def sortBySeq (l : List StopTimeUpdate) : List StopTimeUpdate :=
  List.insertionSort (fun a b => a.stopSequence ≤ b.stopSequence) l

/-- Index of the first stop the bus has not reached (findIndex of the source;
none models the -1 result). -/
def firstPendingIdx (now : Int) : List StopTimeUpdate → Option Nat
  | [] => none
  | stu :: rest =>
    if isPending now stu then some 0
    else (firstPendingIdx now rest).map (· + 1)

/-- The departed flag of the stop at position `i` of the sorted list. -/
def departedFlag (next : Option Nat) (i : Nat) : Bool :=
  match next with
  | none => true
  | some k => decide (i < k)

/-- A row of the stop_times table as the collector stores it. -/
structure DbStopTime where
  trip_id : String
  stop_id : String
  stop_sequence : Int
  direction : Option Int
  arrival_time : Option Int
  arrival_delay : Int
  departure_time : Option Int
  departure_delay : Int
  departed : Nat
deriving DecidableEq, Repr

/-- The rows the collector produces for one trip update at poll time `now`. -/
def stopTimesForTrip (now : Int) (tu : TripUpdate) : List DbStopTime :=
  let direction : Option Int :=
    match tu.directionId with
    | some raw => some (if raw = 0 then 1 else 2)
    | none => none
  let sorted := sortBySeq tu.stopTimeUpdates
  let next := firstPendingIdx now sorted
  sorted.enum.map (fun p =>
    ⟨tu.tripId, p.2.stopId, p.2.stopSequence, direction,
      p.2.arrivalTime, p.2.arrivalDelay, p.2.departureTime, p.2.departureDelay,
      if departedFlag next p.1 then 1 else 0⟩)

/-- All rows stored by one trip-update poll cycle. -/
def pollAndStoreTripUpdatesRows (now : Int) (updates : List TripUpdate) : List DbStopTime :=
  updates.flatMap (stopTimesForTrip now)

/-! ## polling collector - staleness detection -/

/-- Operating-hours test on the Amsterdam wall-clock hour: 06:00 to 01:00,
so hours 1-5 are outside and 6-23 together with 0 are inside. -/
def isDuringOperatingHours (amsterdamHour : Nat) : Bool :=
  amsterdamHour ≥ 6 || amsterdamHour == 0

/-- The staleness bookkeeping of one successful vehicle poll: the number of
filtered vehicles and the operating flag drive the consecutive-empty counter,
returning the new counter and whether a refresh was triggered. -/
def stalenessStep (threshold : Nat) (counter : Nat)
    (vehicleCount : Nat) (operating : Bool) : Nat × Bool :=
  if vehicleCount = 0 && operating then
    let c := counter + 1
    if c ≥ threshold then (0, true) else (c, false)
  else if vehicleCount > 0 then (0, false)
  else (counter, false)

/-- Folding a sequence of successful polls through the staleness bookkeeping,
counting the triggered refreshes. -/
def runStalenessPolls (threshold : Nat) :
    List (Nat × Bool) → Nat → Nat × Nat
  | [], counter => (counter, 0)
  | p :: rest, counter =>
    ((runStalenessPolls threshold rest (stalenessStep threshold counter p.1 p.2).1).1,
      (if (stalenessStep threshold counter p.1 p.2).2 then 1 else 0) +
        (runStalenessPolls threshold rest (stalenessStep threshold counter p.1 p.2).1).2)

/-! ## polling - backoff and cache state -/

/-- MAX_BACKOFF of the pollers: five minutes in milliseconds. -/
def MAX_BACKOFF : Int := 5 * 60 * 1000

/-- One poll outcome applied to the backoff value: reset to the initial
interval on success, double capped at the ceiling on failure. -/
def backoffStep (initial : Int) (b : Int) (success : Bool) : Int :=
  if success then initial else min (b * 2) MAX_BACKOFF

/-- The delay the self-rescheduling timer will wait after a sequence of poll
outcomes, starting from the initial interval. -/
def backoffAfter (initial : Int) (outcomes : List Bool) : Int :=
  outcomes.foldl (backoffStep initial) initial

/-- A per-feed cached result with its staleness flag. -/
structure Cached (α : Type) where
  data : α
  timestamp : String
  stale : Bool
deriving DecidableEq, Repr

/-- pollVehicles of polling.ts as a state transformer: the fetch outcome
(data and observation timestamp, or an error) is fully absorbed, replacing
the cache on success and only flagging it stale on failure. -/
def pollVehiclesStep {α : Type} (cache : Cached α) :
    Except String (α × String) → Cached α
  | .ok (vehicles, ts) => ⟨vehicles, ts, false⟩
  | .error _ => { cache with stale := true }

/-- Assoc-list update helper for the departures cache map. -/
def setEntry {α : Type} (key : String) (v : α) :
    List (String × α) → List (String × α)
  | [] => [(key, v)]
  | (k, w) :: rest => if k = key then (k, v) :: rest else (k, w) :: setEntry key v rest

/-- Mark one map entry stale in place, when present. -/
def markStale {α : Type} (key : String) :
    List (String × Cached α) → List (String × Cached α)
  | [] => []
  | (k, w) :: rest =>
    if k = key then (k, { w with stale := true }) :: rest else (k, w) :: markStale key rest

/-- pollDepartures of polling.ts restricted to its cache effect: on success
the default stop entry is replaced fresh, on failure only the existing
default stop entry is flagged stale. -/
def pollDeparturesStep (cache : List (String × Cached DepartureResult)) :
    Except String (DepartureResult × String) → List (String × Cached DepartureResult)
  | .ok (result, ts) => setEntry config.defaultTpc ⟨result, ts, false⟩ cache
  | .error _ => markStale config.defaultTpc cache

/-! ## db.ts - stop-time retrieval -/

/-- A stored arrival row as returned to the reconciliation input. -/
structure DbArrival where
  tripId : String
  arrivalTime : Int
  delay : Int
  departed : Bool
deriving DecidableEq, Repr

/-- The ORDER BY arrival_time comparison; SQLite sorts NULLs first. -/
def arrivalKeyLe (a b : DbStopTime) : Bool :=
  match a.arrival_time, b.arrival_time with
  | none, _ => true
  | some _, none => false
  | some x, some y => decide (x ≤ y)

/-- The row projection of getArrivalsForStopFromDb: none for rows whose
arrival time is null (they are dropped by the filter of the source). -/
def dbArrivalOf (r : DbStopTime) : Option DbArrival :=
  match r.arrival_time with
  | some t => some ⟨r.trip_id, t, r.arrival_delay, r.departed == 1⟩
  | none => none

/-- getArrivalsForStopFromDb of db.ts: select rows of the stop that are not
departed, order by arrival time, then drop rows whose arrival time is null
and project onto the arrival record. -/
def getArrivalsForStopFromDb (stopId : String) (rows : List DbStopTime) : List DbArrival :=
  let sel := rows.filter (fun r => r.stop_id == stopId && r.departed == 0)
  let sorted := List.insertionSort (fun a b => arrivalKeyLe a b) sel
  sorted.filterMap dbArrivalOf

/-! ## gtfs-extract.ts - reference data refresh -/

/-- The upstream version identifiers of the static dataset. -/
structure GtfsMeta where
  etag : String
  lastModified : String
deriving DecidableEq, Repr

/-- The on-disk state the refresher reads and writes: the cached zip metadata,
whether the cached zip exists, the version token recorded in the installed
route.json (none when missing or corrupt), and a count of route.json
replacements used to state the exactly-once property. -/
structure GtfsExtractState where
  meta : Option GtfsMeta
  zipCached : Bool
  routeEtag : Option String
  replacements : Nat
deriving DecidableEq, Repr

/-- The install tail of doRefresh: parse, write route.json atomically,
reload, return true. -/
def installRoute (upstream : GtfsMeta) (s : GtfsExtractState) : Bool × GtfsExtractState :=
  (true, { s with routeEtag := some upstream.etag, replacements := s.replacements + 1 })

/-- doRefresh of gtfs-extract.ts on the happy path (HEAD, download and parse
succeed): skip only when the cached zip metadata matches the upstream token
and the installed route.json already records that token. -/
def doRefresh (upstream : GtfsMeta) (s : GtfsExtractState) : Bool × GtfsExtractState :=
  match s.meta with
  | some m =>
    if s.zipCached then
      if m.etag == upstream.etag && m.lastModified == upstream.lastModified then
        if s.routeEtag == some upstream.etag then (false, s)
        else installRoute upstream s
      else installRoute upstream { s with meta := some upstream, zipCached := true }
    else installRoute upstream { s with meta := some upstream, zipCached := true }
  | none => installRoute upstream { s with meta := some upstream, zipCached := true }

/-- refreshGtfsData: the concurrency guard makes an in-flight call a no-op
returning false; sequential calls run doRefresh. -/
def refreshGtfsData (inProgress : Bool) (upstream : GtfsMeta) (s : GtfsExtractState) :
    Bool × GtfsExtractState :=
  if inProgress then (false, s) else doRefresh upstream s

/-! ## Helper lemmas for the poll-cycle theorems -/

theorem stalenessStep_zero_inside (K c : Nat) :
    stalenessStep K c 0 true = (if c + 1 ≥ K then (0, true) else (c + 1, false)) := by
  unfold stalenessStep
  simp

theorem runStalenessPolls_append (K : Nat) (l1 l2 : List (Nat × Bool)) : ∀ c,
    runStalenessPolls K (l1 ++ l2) c =
      ((runStalenessPolls K l2 (runStalenessPolls K l1 c).1).1,
        (runStalenessPolls K l1 c).2 + (runStalenessPolls K l2 (runStalenessPolls K l1 c).1).2) := by
  induction l1 with
  | nil =>
      intro c
      simp [runStalenessPolls]
  | cons p rest ih =>
      intro c
      simp only [List.cons_append, runStalenessPolls, List.append_eq]
      rw [ih]
      simp only [Prod.mk.injEq]
      refine ⟨?_, ?_⟩ <;> first | trivial | omega

theorem runStalenessPolls_zeros_below (K : Nat) : ∀ (n c : Nat), c + n < K →
    runStalenessPolls K (List.replicate n (0, true)) c = (c + n, 0) := by
  intro n
  induction n with
  | zero =>
      intro c _
      simp [runStalenessPolls]
  | succ m ih =>
      intro c hc
      rw [List.replicate_succ]
      simp only [runStalenessPolls]
      rw [stalenessStep_zero_inside, if_neg (by omega)]
      have := ih (c + 1) (by omega)
      simp only [this]
      simp only [Prod.mk.injEq]
      refine ⟨?_, ?_⟩ <;> first | trivial | omega

theorem backoffStep_success (initial b : Int) : backoffStep initial b true = initial := rfl

theorem backoffAfter_failures_from (initial : Int)
    (hip : 0 < initial) (him : initial ≤ MAX_BACKOFF) : ∀ (N : Nat) (b : Int),
    0 < b → b ≤ MAX_BACKOFF →
    List.foldl (backoffStep initial) b (List.replicate N false) =
      min (b * 2 ^ N) MAX_BACKOFF := by
  intro N
  induction N with
  | zero =>
      intro b hb hbm
      simp only [List.replicate, List.foldl_nil, pow_zero, mul_one]
      omega
  | succ m ih =>
      intro b hb hbm
      rw [List.replicate_succ]
      simp only [List.foldl_cons]
      have hstep : backoffStep initial b false = min (b * 2) MAX_BACKOFF := rfl
      rw [hstep]
      have hres := ih (min (b * 2) MAX_BACKOFF) (by unfold MAX_BACKOFF at *; omega)
        (by unfold MAX_BACKOFF at *; omega)
      rw [hres]
      have hpow0 : (0:Int) < 2 ^ m := pow_pos (by norm_num) m
      have hpow : (1:Int) ≤ 2 ^ m := by omega
      rcases le_or_lt (b * 2) MAX_BACKOFF with hc | hc
      · rw [min_eq_left hc]
        congr 1
        ring
      · have hM : (0:Int) < MAX_BACKOFF := by unfold MAX_BACKOFF; omega
        have hmono : MAX_BACKOFF ≤ MAX_BACKOFF * 2 ^ m := by
          calc MAX_BACKOFF = MAX_BACKOFF * 1 := by ring
            _ ≤ MAX_BACKOFF * 2 ^ m :=
              mul_le_mul_of_nonneg_left hpow (le_of_lt hM)
        have hbig : MAX_BACKOFF ≤ b * 2 ^ (m + 1) := by
          have hstep2 : MAX_BACKOFF * 2 ^ m ≤ (b * 2) * 2 ^ m :=
            mul_le_mul_of_nonneg_right (le_of_lt hc) (by positivity)
          calc MAX_BACKOFF ≤ MAX_BACKOFF * 2 ^ m := hmono
            _ ≤ (b * 2) * 2 ^ m := hstep2
            _ = b * 2 ^ (m + 1) := by ring
        rw [min_eq_right (le_of_lt hc), min_eq_right hmono, min_eq_right hbig]

theorem lookup_markStale {α : Type} (key k : String) :
    ∀ (m : List (String × Cached α)),
      (markStale key m).lookup k =
        if k = key then (m.lookup k).map (fun c => { c with stale := true })
        else m.lookup k := by
  intro m
  induction m with
  | nil =>
      by_cases hk : k = key <;> simp [markStale, hk]
  | cons p rest ih =>
      obtain ⟨pk, pc⟩ := p
      by_cases hpk : pk = key
      · subst hpk
        rw [show markStale pk ((pk, pc) :: rest)
            = (pk, { pc with stale := true }) :: rest from by simp [markStale]]
        by_cases hk : k = pk
        · subst hk
          simp [List.lookup]
        · have hbeq : (k == pk) = false := by simp [hk]
          simp [List.lookup, hbeq, hk]
      · rw [show markStale key ((pk, pc) :: rest)
            = (pk, pc) :: markStale key rest from by simp [markStale, hpk]]
        by_cases hk : k = pk
        · subst hk
          have hkey : ¬k = key := hpk
          simp [List.lookup, hkey]
        · have hbeq : (k == pk) = false := by simp [hk]
          simp only [List.lookup, hbeq]
          exact ih

/-! ## Claim theorems -/

/-- C4: with threshold K, starting from a zero counter, exactly K consecutive
successful zero-vehicle polls inside the operating window trigger exactly one
refresh and reset the counter to zero; fewer than K such polls trigger none;
and a successful zero-vehicle poll outside the window leaves the counter
unchanged (never increments it).  The operating window on the Amsterdam hour
is exactly hours 6-23 and 0. -/
theorem staleness_trigger_exactly_once (K : Nat) (hK : 1 ≤ K) :
    runStalenessPolls K (List.replicate K (0, true)) 0 = (0, 1) ∧
    (∀ N, N < K → runStalenessPolls K (List.replicate N (0, true)) 0 = (N, 0)) ∧
    (∀ c, stalenessStep K c 0 false = (c, false)) ∧
    (∀ h : Nat, isDuringOperatingHours h = true ↔ (6 ≤ h ∨ h = 0)) := by
  refine ⟨?_, ?_, ?_, ?_⟩
  · have hsplit : List.replicate K ((0:Nat), true)
        = List.replicate (K - 1) (0, true) ++ [(0, true)] := by
      rw [← List.replicate_succ']
      congr 1
      omega
    rw [hsplit, runStalenessPolls_append]
    rw [runStalenessPolls_zeros_below K (K - 1) 0 (by omega)]
    have hzero : 0 + (K - 1) = K - 1 := by omega
    rw [hzero]
    simp only [runStalenessPolls]
    rw [stalenessStep_zero_inside, if_pos (by omega)]
    simp [runStalenessPolls]
  · intro N hN
    simpa using runStalenessPolls_zeros_below K N 0 (by omega)
  · intro c
    unfold stalenessStep
    simp
  · intro h
    unfold isDuringOperatingHours
    simp [Bool.or_eq_true, decide_eq_true_eq, beq_iff_eq, ge_iff_le]

/-- C4 witness: five zero-vehicle polls inside the window at the configured
threshold five trigger exactly one refresh and reset the counter, and an
out-of-window zero poll leaves a counter of two unchanged. -/
theorem staleness_trigger_exactly_once_witness :
    runStalenessPolls 5 (List.replicate 5 (0, true)) 0 = (0, 1) ∧
      stalenessStep 5 2 0 false = (2, false) := by
  have h := staleness_trigger_exactly_once 5 (by decide)
  exact ⟨h.1, h.2.2.1 2⟩

/-- The install branches of doRefresh all produce the same resulting state. -/
theorem doRefresh_installs (u : GtfsMeta) (s : GtfsExtractState)
    (h : s.routeEtag ≠ some u.etag) :
    doRefresh u s = (true, ⟨some u, true, some u.etag, s.replacements + 1⟩) := by
  rcases s with ⟨meta, zip, retag, reps⟩
  simp only [ne_eq] at h
  rcases meta with _ | ⟨me, ml⟩
  · rfl
  · by_cases hz : zip
    · subst hz
      show (if (me == u.etag && ml == u.lastModified) = true then _ else _) = _
      by_cases hmatch : me = u.etag ∧ ml = u.lastModified
      · obtain ⟨h1, h2⟩ := hmatch
        subst h1; subst h2
        rw [if_pos (by simp)]
        rw [if_neg (by simp [h])]
        rfl
      · have hcond : (me == u.etag && ml == u.lastModified) = false := by
          rcases Decidable.not_and_iff_or_not.mp hmatch with hne | hne <;>
            simp [hne]
        rw [if_neg (by simp [hcond])]
        rfl
    · simp only [Bool.not_eq_true] at hz
      subst hz
      rfl

theorem doRefresh_skips (u : GtfsMeta) (s : GtfsExtractState)
    (h1 : s.meta = some u) (h2 : s.zipCached = true) (h3 : s.routeEtag = some u.etag) :
    doRefresh u s = (false, s) := by
  rcases s with ⟨meta, zip, retag, reps⟩
  simp only at h1 h2 h3
  subst h1; subst h2; subst h3
  show (if (u.etag == u.etag && u.lastModified == u.lastModified) = true then _ else _) = _
  rw [if_pos (by simp)]
  rw [if_pos (by simp)]

/-- C5: two consecutive refresher invocations under an unchanged upstream
version token perform exactly one snapshot replacement: the first returns
true and installs the token, the second returns false and leaves the state
untouched. -/
theorem refresh_idempotent (e lm : String) (s : GtfsExtractState)
    (h : s.routeEtag ≠ some e) :
    (refreshGtfsData false ⟨e, lm⟩ s).1 = true ∧
    (refreshGtfsData false ⟨e, lm⟩ s).2.routeEtag = some e ∧
    (refreshGtfsData false ⟨e, lm⟩ s).2.replacements = s.replacements + 1 ∧
    (refreshGtfsData false ⟨e, lm⟩ (refreshGtfsData false ⟨e, lm⟩ s).2).1 = false ∧
    (refreshGtfsData false ⟨e, lm⟩ (refreshGtfsData false ⟨e, lm⟩ s).2).2
      = (refreshGtfsData false ⟨e, lm⟩ s).2 := by
  have hguard : ∀ s', refreshGtfsData false ⟨e, lm⟩ s' = doRefresh ⟨e, lm⟩ s' := by
    intro s'
    unfold refreshGtfsData
    rw [if_neg (by simp)]
  have h1 := doRefresh_installs ⟨e, lm⟩ s h
  have h2 := doRefresh_skips ⟨e, lm⟩ ⟨some ⟨e, lm⟩, true, some e, s.replacements + 1⟩
    rfl rfl rfl
  rw [hguard, h1]
  refine ⟨rfl, rfl, rfl, ?_, ?_⟩ <;> rw [hguard, h2]

/-- C5 witness: from a fresh state with no installed snapshot, refreshing
twice for token E replaces once. -/
theorem refresh_idempotent_witness :
    (refreshGtfsData false ⟨"E", "L"⟩ ⟨none, false, none, 0⟩).1 = true ∧
    (refreshGtfsData false ⟨"E", "L"⟩
        (refreshGtfsData false ⟨"E", "L"⟩ ⟨none, false, none, 0⟩).2).1 = false := by
  have h := refresh_idempotent "E" "L" ⟨none, false, none, 0⟩ (by simp)
  exact ⟨h.1, h.2.2.2.1⟩

/-- C7: after N consecutive failures the next scheduled delay is the initial
interval doubled N times, capped at the five-minute ceiling, regardless of
the history before the last success; one success resets the delay to the
initial interval. -/
theorem backoff_formula (initial : Int) (hip : 0 < initial)
    (him : initial ≤ MAX_BACKOFF) :
    (∀ N : Nat, backoffAfter initial (List.replicate N false)
        = min (initial * 2 ^ N) MAX_BACKOFF) ∧
    (∀ (os : List Bool) (N : Nat),
        backoffAfter initial (os ++ true :: List.replicate N false)
          = min (initial * 2 ^ N) MAX_BACKOFF) ∧
    (∀ os : List Bool, backoffAfter initial (os ++ [true]) = initial) := by
  refine ⟨?_, ?_, ?_⟩
  · intro N
    exact backoffAfter_failures_from initial hip him N initial hip him
  · intro os N
    unfold backoffAfter
    rw [List.foldl_append, List.foldl_cons, backoffStep_success]
    exact backoffAfter_failures_from initial hip him N initial hip him
  · intro os
    unfold backoffAfter
    rw [List.foldl_append, List.foldl_cons, backoffStep_success, List.foldl_nil]

/-- C7 witness: at the 30-second configured interval, four straight failures
give 480 seconds capped to 300, and a success resets to 30 seconds. -/
theorem backoff_formula_witness :
    backoffAfter config.vehiclePollInterval (List.replicate 4 false) = 300000 ∧
    backoffAfter config.vehiclePollInterval [false, true] = 30000 := by
  have h := backoff_formula config.vehiclePollInterval (by decide) (by decide)
  constructor
  · have := h.1 4
    simpa using this
  · have := h.2.2 [false]
    simpa using this

/-- C8: a failed poll never replaces cached data: the vehicle cache keeps its
data and last-good timestamp and only gains the stale flag, and the
departures cache map keeps every entry, with only the default stop entry
flagged stale when present; the failure is absorbed by the step function
(the outcome, error included, is a total input, never a propagated
exception). -/
theorem poll_failure_frame {α : Type} (cache : Cached α) (e : String)
    (m : List (String × Cached DepartureResult)) :
    (pollVehiclesStep cache (.error e)).data = cache.data ∧
    (pollVehiclesStep cache (.error e)).timestamp = cache.timestamp ∧
    (pollVehiclesStep cache (.error e)).stale = true ∧
    (∀ k, k ≠ config.defaultTpc →
      (pollDeparturesStep m (.error e)).lookup k = m.lookup k) ∧
    (∀ c, m.lookup config.defaultTpc = some c →
      (pollDeparturesStep m (.error e)).lookup config.defaultTpc
        = some ⟨c.data, c.timestamp, true⟩) := by
  refine ⟨rfl, rfl, rfl, ?_, ?_⟩
  · intro k hk
    show (markStale config.defaultTpc m).lookup k = m.lookup k
    rw [lookup_markStale, if_neg hk]
  · intro c hc
    show (markStale config.defaultTpc m).lookup config.defaultTpc = _
    rw [lookup_markStale, if_pos rfl, hc]
    rfl

/-- C9: fetchDepartures fails exactly on a network error or a non-success
HTTP status; a successful response without truthy data for the requested
timing point code yields an empty departure list and a null stop, not an
error. -/
theorem fetchDepartures_error_iff (tpc nowIso : String) (r : UpstreamResponse) :
    ((∃ msg, fetchDepartures tpc nowIso r = .error msg) ↔
      ((∃ m, r = .netError m) ∨ ∃ st body, r = .httpResponse false st body)) ∧
    (∀ st body, r = .httpResponse true st body →
      (body.lookup tpc = none ∨ body.lookup tpc = some none) →
      fetchDepartures tpc nowIso r = .ok ⟨none, [], nowIso⟩) := by
  have hok : ∀ st (body : List (String × Option TpcData)),
      ∀ msg, fetchDepartures tpc nowIso (.httpResponse true st body) ≠ .error msg := by
    intro st body msg hmsg
    simp only [fetchDepartures] at hmsg
    rw [if_neg (by simp)] at hmsg
    rcases hlk : body.lookup tpc with _ | td
    · rw [hlk] at hmsg; cases hmsg
    · rcases td with _ | td'
      · rw [hlk] at hmsg; cases hmsg
      · rw [hlk] at hmsg
        revert hmsg
        rcases collectPasses tpc td'.passes none with ⟨si, deps⟩
        simp
  refine ⟨⟨?_, ?_⟩, ?_⟩
  · rintro ⟨msg, hmsg⟩
    cases r with
    | netError m => exact Or.inl ⟨m, rfl⟩
    | httpResponse ok st body =>
      cases ok with
      | false => exact Or.inr ⟨st, body, rfl⟩
      | true => exact absurd hmsg (hok st body msg)
  · rintro (⟨m, hm⟩ | ⟨st, body, hb⟩)
    · subst hm; exact ⟨m, rfl⟩
    · subst hb
      refine ⟨"OVapi returned " ++ toString st ++ " for TPC " ++ tpc, ?_⟩
      simp only [fetchDepartures]
      rw [if_pos (by simp)]
  · intro st body hr hlk
    subst hr
    simp only [fetchDepartures]
    rw [if_neg (by simp)]
    rcases hlk with h | h <;> rw [h]

theorem arrivalKeyLe_total (a b : DbStopTime) :
    arrivalKeyLe a b = true ∨ arrivalKeyLe b a = true := by
  unfold arrivalKeyLe
  rcases a.arrival_time with _ | x <;> rcases b.arrival_time with _ | y <;> simp <;> omega

theorem arrivalKeyLe_trans (a b c : DbStopTime)
    (h1 : arrivalKeyLe a b = true) (h2 : arrivalKeyLe b c = true) :
    arrivalKeyLe a c = true := by
  unfold arrivalKeyLe at *
  rcases ha : a.arrival_time with _ | x <;>
    rcases hb : b.arrival_time with _ | y <;>
    rcases hc : c.arrival_time with _ | z <;>
    simp_all <;> omega

/-- C10: getArrivalsForStopFromDb returns exactly the stored rows of the stop
whose departed flag is 0 and whose arrival time is non-null, ordered
ascending by arrival time; every returned record traces back to such a row;
and meanwhile a null-arrival stop participates in the departed derivation
through its departure time, so a departure-only prediction influences the
departed flags yet is excluded from the reconciliation input. -/
theorem getArrivalsForStop_spec (stopId : String) (rows : List DbStopTime) :
    (getArrivalsForStopFromDb stopId rows).Perm
      ((rows.filter (fun r => r.stop_id == stopId && r.departed == 0)).filterMap dbArrivalOf) ∧
    (getArrivalsForStopFromDb stopId rows).Sorted (fun a b => a.arrivalTime ≤ b.arrivalTime) ∧
    (∀ a ∈ getArrivalsForStopFromDb stopId rows,
      ∃ r ∈ rows, r.stop_id = stopId ∧ r.departed = 0 ∧ r.arrival_time = some a.arrivalTime) ∧
    (∃ (now : Int) (stu1 stu2 : StopTimeUpdate),
      stu1.arrivalTime = none ∧ stu2.arrivalTime = none ∧
      stu1.departureTime ≠ stu2.departureTime ∧
      isPending now stu1 = true ∧ isPending now stu2 = false ∧
      dbArrivalOf ⟨"t", stu1.stopId, stu1.stopSequence, none, stu1.arrivalTime,
        stu1.arrivalDelay, stu1.departureTime, stu1.departureDelay, 0⟩ = none) := by
  have hperm : (List.insertionSort (fun a b => arrivalKeyLe a b)
        (rows.filter (fun r => r.stop_id == stopId && r.departed == 0))).Perm
      (rows.filter (fun r => r.stop_id == stopId && r.departed == 0)) :=
    List.perm_insertionSort _ _
  refine ⟨List.Perm.filterMap dbArrivalOf hperm, ?_, ?_, ?_⟩
  · have hsorted : (List.insertionSort (fun a b => arrivalKeyLe a b)
          (rows.filter (fun r => r.stop_id == stopId && r.departed == 0))).Sorted
        (fun a b => arrivalKeyLe a b = true) := by
      haveI : IsTotal DbStopTime (fun a b => arrivalKeyLe a b = true) :=
        ⟨arrivalKeyLe_total⟩
      haveI : IsTrans DbStopTime (fun a b => arrivalKeyLe a b = true) :=
        ⟨arrivalKeyLe_trans⟩
      exact List.sorted_insertionSort _ _
    refine List.Pairwise.filterMap dbArrivalOf ?_ hsorted
    intro a a' hle b hb b' hb'
    unfold dbArrivalOf at hb hb'
    unfold arrivalKeyLe at hle
    rcases ha : a.arrival_time with _ | x <;> rw [ha] at hle hb
    · rw [Option.mem_def] at hb
      cases hb
    · rcases ha' : a'.arrival_time with _ | y <;> rw [ha'] at hle hb'
      · cases hle
      · rw [Option.mem_def, Option.some.injEq] at hb hb'
        subst hb
        subst hb'
        show x ≤ y
        simpa using hle
  · intro a ha
    have hmem : a ∈ (rows.filter
        (fun r => r.stop_id == stopId && r.departed == 0)).filterMap dbArrivalOf :=
      (List.Perm.filterMap dbArrivalOf hperm).mem_iff.mp ha
    rw [List.mem_filterMap] at hmem
    obtain ⟨r, hrsel, hproj⟩ := hmem
    rw [List.mem_filter] at hrsel
    obtain ⟨hrow, hcond⟩ := hrsel
    rw [Bool.and_eq_true, beq_iff_eq, beq_iff_eq] at hcond
    refine ⟨r, hrow, hcond.1, hcond.2, ?_⟩
    unfold dbArrivalOf at hproj
    rcases hat : r.arrival_time with _ | t <;> rw [hat] at hproj
    · cases hproj
    · simp only [Option.some.injEq] at hproj
      rw [← hproj]
  · exact ⟨100, ⟨"s", 1, none, 0, some 1000, 0⟩, ⟨"s", 1, none, 0, some 0, 0⟩,
      rfl, rfl, by decide, by decide, by decide, rfl⟩

theorem firstPendingIdx_none_iff (now : Int) : ∀ (l : List StopTimeUpdate),
    firstPendingIdx now l = none ↔
      ∀ j (hj : j < l.length), isPending now (l.get ⟨j, hj⟩) = false := by
  intro l
  induction l with
  | nil => simp [firstPendingIdx]
  | cons stu rest ih =>
      unfold firstPendingIdx
      by_cases hp : isPending now stu = true
      · rw [if_pos hp]
        constructor
        · intro h; cases h
        · intro h
          exact absurd (h 0 (by simp)) (by simp [hp])
      · rw [if_neg hp]
        rw [Option.map_eq_none']
        rw [ih]
        constructor
        · intro h j hj
          match j with
          | 0 =>
            show isPending now stu = false
            simpa using hp
          | k + 1 =>
            exact h k (by simpa using hj)
        · intro h j hj
          exact h (j + 1) (by simpa using hj)

theorem firstPendingIdx_some (now : Int) : ∀ (l : List StopTimeUpdate) (k : Nat),
    firstPendingIdx now l = some k →
      ∃ hk : k < l.length, isPending now (l.get ⟨k, hk⟩) = true ∧
        ∀ j (hj : j < l.length), j < k → isPending now (l.get ⟨j, hj⟩) = false := by
  intro l
  induction l with
  | nil => intro k h; cases h
  | cons stu rest ih =>
      intro k h
      unfold firstPendingIdx at h
      by_cases hp : isPending now stu = true
      · rw [if_pos hp] at h
        injection h with hk0
        subst hk0
        exact ⟨by simp, hp, fun j hj hlt => absurd hlt (by omega)⟩
      · rw [if_neg hp] at h
        rcases hmap : firstPendingIdx now rest with _ | kr
        · rw [hmap] at h; cases h
        · rw [hmap, Option.map_some'] at h
          injection h with hk
          subst hk
          obtain ⟨hkr, hpend, hbefore⟩ := ih kr hmap
          refine ⟨by simpa using Nat.succ_lt_succ hkr, by simpa using hpend, ?_⟩
          intro j hj hlt
          match j with
          | 0 =>
            show isPending now stu = false
            simpa using hp
          | m + 1 =>
            exact hbefore m (by simpa using hj) (by omega)

theorem stopTimesForTrip_length (now : Int) (tu : TripUpdate) :
    (stopTimesForTrip now tu).length = (sortBySeq tu.stopTimeUpdates).length := by
  simp [stopTimesForTrip]

theorem stopTimesForTrip_departed (now : Int) (tu : TripUpdate) (i : Nat)
    (hi : i < (stopTimesForTrip now tu).length) :
    ((stopTimesForTrip now tu).get ⟨i, hi⟩).departed
      = if departedFlag (firstPendingIdx now (sortBySeq tu.stopTimeUpdates)) i
        then 1 else 0 := by
  have hi' : i < (sortBySeq tu.stopTimeUpdates).length := by
    rw [← stopTimesForTrip_length now tu]; exact hi
  unfold stopTimesForTrip
  simp [List.get_eq_getElem, List.getElem_map, List.getElem_enum]

/-- The literal reading of the C2 sentence: for every trip update, a stop at
sorted position i is marked departed iff no stop at position greater than or
equal to i still has a pending time. -/
def departedIffNoLaterPending : Prop :=
  ∀ (now : Int) (tu : TripUpdate),
    ∀ i (hi : i < (stopTimesForTrip now tu).length)
      (hi' : i < (sortBySeq tu.stopTimeUpdates).length),
      (((stopTimesForTrip now tu).get ⟨i, hi⟩).departed = 1 ↔
        ∀ j (hj : j < (sortBySeq tu.stopTimeUpdates).length), i ≤ j →
          isPending now ((sortBySeq tu.stopTimeUpdates).get ⟨j, hj⟩) = false)

/-- C2 counterexample trip: the first stop is long past, the second pending. -/
def c2Trip : TripUpdate :=
  ⟨"trip-1", some 0,
    [⟨"stopA", 1, some 100, 0, none, 0⟩, ⟨"stopB", 2, some 20000, 0, none, 0⟩]⟩

/-- C2 counterexample: at poll time 10000 the collector marks stop at index 0
of c2Trip departed although the later stop at index 1 is still pending, so
the claimed greater-or-equal characterization fails at i = 0. -/
theorem departed_claim_counterexample : ¬ departedIffNoLaterPending := by
  intro h
  have h0 := h 10000 c2Trip 0 (by decide) (by decide)
  have hpend := (h0.mp (by decide)) 1 (by decide) (by omega)
  exact absurd hpend (by decide)

/-- C2 corrected: a stop at sorted position i is marked departed iff no stop
at position less than or equal to i still has a pending time; consequently
the departed stops form a prefix of the sorted sequence, and when no stop is
pending every stop is marked departed. -/
theorem departed_prefix_spec (now : Int) (tu : TripUpdate) :
    (stopTimesForTrip now tu).length = (sortBySeq tu.stopTimeUpdates).length ∧
    (∀ i (hi : i < (stopTimesForTrip now tu).length)
        (hi' : i < (sortBySeq tu.stopTimeUpdates).length),
      (((stopTimesForTrip now tu).get ⟨i, hi⟩).departed = 1 ↔
        ∀ j (hj : j < (sortBySeq tu.stopTimeUpdates).length), j ≤ i →
          isPending now ((sortBySeq tu.stopTimeUpdates).get ⟨j, hj⟩) = false)) ∧
    (∀ i j (hi : i < (stopTimesForTrip now tu).length)
        (hj : j < (stopTimesForTrip now tu).length), i ≤ j →
      ((stopTimesForTrip now tu).get ⟨j, hj⟩).departed = 1 →
      ((stopTimesForTrip now tu).get ⟨i, hi⟩).departed = 1) ∧
    ((∀ j (hj : j < (sortBySeq tu.stopTimeUpdates).length),
        isPending now ((sortBySeq tu.stopTimeUpdates).get ⟨j, hj⟩) = false) →
      ∀ i (hi : i < (stopTimesForTrip now tu).length),
        ((stopTimesForTrip now tu).get ⟨i, hi⟩).departed = 1) := by
  have hmain : ∀ i (hi : i < (stopTimesForTrip now tu).length),
      (((stopTimesForTrip now tu).get ⟨i, hi⟩).departed = 1 ↔
        ∀ j (hj : j < (sortBySeq tu.stopTimeUpdates).length), j ≤ i →
          isPending now ((sortBySeq tu.stopTimeUpdates).get ⟨j, hj⟩) = false) := by
    intro i hi
    rw [stopTimesForTrip_departed now tu i hi]
    rcases hfpi : firstPendingIdx now (sortBySeq tu.stopTimeUpdates) with _ | k
    · have hall := (firstPendingIdx_none_iff now _).mp hfpi
      simp only [departedFlag, if_pos rfl]
      constructor
      · intro _ j hj _
        exact hall j hj
      · intro _
        rfl
    · obtain ⟨hk, hpend, hbefore⟩ := firstPendingIdx_some now _ k hfpi
      simp only [departedFlag]
      by_cases hik : i < k
      · rw [if_pos (by simpa using hik)]
        constructor
        · intro _ j hj hji
          exact hbefore j hj (by omega)
        · intro _
          rfl
      · rw [if_neg (by simpa using hik)]
        constructor
        · intro h01
          cases h01
        · intro hforall
          have hfalse := hforall k hk (by omega)
          rw [List.get_eq_getElem] at hfalse
          rw [List.get_eq_getElem] at hpend
          rw [hfalse] at hpend
          cases hpend
  refine ⟨stopTimesForTrip_length now tu, fun i hi _ => hmain i hi, ?_, ?_⟩
  · intro i j hi hj hij hdep
    rw [hmain i hi]
    rw [hmain j hj] at hdep
    intro j' hj' hj'i
    exact hdep j' hj' (by omega)
  · intro hnone i hi
    rw [hmain i hi]
    intro j hj _
    exact hnone j hj

/-- The accumulator invariant of the closest-match scan: a held candidate
carries its own difference, below the ten-minute window. -/
def mWF (oAms : Int) (sched : String) : Option (Nat × RealtimeArrival × Int) → Prop
  | none => True
  | some (_, rt, d) => d = rtDiff oAms sched rt ∧ d < 600000

theorem mWF_bound_le (oAms : Int) (sched : String) :
    ∀ acc, mWF oAms sched acc → mBound acc ≤ 600000
  | none, _ => le_refl _
  | some (_, _, _), h => le_of_lt h.2

theorem bestMatchLoop_spec (oAms : Int) (sched : String) :
    ∀ (l : List RealtimeArrival) (i0 : Nat) (acc : Option (Nat × RealtimeArrival × Int)),
      mWF oAms sched acc →
      mWF oAms sched (bestMatchLoop oAms sched l i0 acc) ∧
      mBound (bestMatchLoop oAms sched l i0 acc) ≤ mBound acc ∧
      (∀ j (hj : j < l.length),
        mBound (bestMatchLoop oAms sched l i0 acc) ≤ rtDiff oAms sched (l.get ⟨j, hj⟩)) ∧
      (bestMatchLoop oAms sched l i0 acc = acc ∨
        ∃ j, ∃ hj : j < l.length, bestMatchLoop oAms sched l i0 acc
          = some (i0 + j, l.get ⟨j, hj⟩, rtDiff oAms sched (l.get ⟨j, hj⟩))) := by
  intro l
  induction l with
  | nil =>
      intro i0 acc hacc
      refine ⟨hacc, le_refl _, ?_, Or.inl rfl⟩
      intro j hj
      simp at hj
  | cons rt rest ih =>
      intro i0 acc hacc
      have hunf : bestMatchLoop oAms sched (rt :: rest) i0 acc
          = bestMatchLoop oAms sched rest (i0 + 1)
            (if rtDiff oAms sched rt < min 600000 (mBound acc)
              then some (i0, rt, rtDiff oAms sched rt) else acc) := rfl
      rw [hunf]
      by_cases hb : rtDiff oAms sched rt < min 600000 (mBound acc)
      · rw [if_pos hb]
        obtain ⟨w1, w2, w3, w4⟩ := ih (i0 + 1) (some (i0, rt, rtDiff oAms sched rt))
          ⟨rfl, by omega⟩
        have hbd : mBound (some (i0, rt, rtDiff oAms sched rt)) = rtDiff oAms sched rt := rfl
        refine ⟨w1, by omega, ?_, ?_⟩
        · intro j hj
          match j with
          | 0 =>
            show _ ≤ rtDiff oAms sched rt
            omega
          | m + 1 =>
            exact w3 m (by simpa using hj)
        · rcases w4 with hsame | ⟨j, hj, heq⟩
          · refine Or.inr ⟨0, by simp, ?_⟩
            rw [hsame]
            simp
          · refine Or.inr ⟨j + 1, by simpa using hj, ?_⟩
            rw [heq]
            have : i0 + 1 + j = i0 + (j + 1) := by omega
            rw [this]
            rfl
      · rw [if_neg hb]
        obtain ⟨w1, w2, w3, w4⟩ := ih (i0 + 1) acc hacc
        have hle600 := mWF_bound_le oAms sched _ w1
        refine ⟨w1, w2, ?_, ?_⟩
        · intro j hj
          match j with
          | 0 =>
            show _ ≤ rtDiff oAms sched rt
            omega
          | m + 1 =>
            exact w3 m (by simpa using hj)
        · rcases w4 with hsame | ⟨j, hj, heq⟩
          · exact Or.inl hsame
          · refine Or.inr ⟨j + 1, by simpa using hj, ?_⟩
            rw [heq]
            have : i0 + 1 + j = i0 + (j + 1) := by omega
            rw [this]
            rfl

/-- The literal reading of C1: over any reconciliation query, a realtime
prediction is claimed by at most one scheduled departure. -/
def predictionClaimedOnce : Prop :=
  ∀ (oAms : Int) (rts : List RealtimeArrival) (deps : List Departure)
    (i j : Nat) (hi : i < deps.length) (hj : j < deps.length), i ≠ j →
    ∀ k, claimedIdx oAms rts (deps.get ⟨i, hi⟩) = some k →
      claimedIdx oAms rts (deps.get ⟨j, hj⟩) ≠ some k

/-- C1 counterexample data: one prediction whose implied scheduled time
(00:01:00) is within ten minutes of both scheduled departures. -/
def c1Rt : RealtimeArrival := ⟨"t1", 120, 60, false⟩

def c1Dep1 : Departure :=
  ⟨1, "1970-01-01T00:01:00", "1970-01-01T00:01:00", 0, "PLANNED", false,
    "Amsterdam Elandsgracht", 1⟩

def c1Dep2 : Departure :=
  ⟨2, "1970-01-01T00:03:00", "1970-01-01T00:03:00", 0, "PLANNED", false,
    "Amsterdam Elandsgracht", 1⟩

/-- C1 counterexample: the matching loop never consults the claimed set, so
the single prediction is claimed by both departures of the query (both
claimed indices are 0), refuting at-most-once claiming. -/
theorem prediction_claim_counterexample :
    ¬ predictionClaimedOnce ∧
    claimedIdx 0 [c1Rt] c1Dep1 = some 0 ∧
    claimedIdx 0 [c1Rt] c1Dep2 = some 0 := by
  refine ⟨?_, by decide, by decide⟩
  intro h
  exact absurd (by decide : claimedIdx 0 [c1Rt] c1Dep2 = some 0)
    (h 0 [c1Rt] [c1Dep1, c1Dep2] 0 1 (by decide) (by decide) (by decide) 0 (by decide))

/-- C1 corrected: each scheduled departure independently claims a prediction
whose time difference is minimal over the whole arrival list and below the
ten-minute window, with no exclusion of predictions already claimed for
another departure (so one prediction may overwrite several departures, as
the counterexample shows); when no prediction lies within the window nothing
is claimed. -/
theorem claimedIdx_spec (oAms : Int) (rts : List RealtimeArrival) (dep : Departure) :
    (claimedIdx oAms rts dep = none →
      ∀ j (hj : j < rts.length),
        600000 ≤ rtDiff oAms dep.scheduledDeparture (rts.get ⟨j, hj⟩)) ∧
    (∀ k, claimedIdx oAms rts dep = some k →
      ∃ hk : k < rts.length,
        rtDiff oAms dep.scheduledDeparture (rts.get ⟨k, hk⟩) < 600000 ∧
        ∀ j (hj : j < rts.length),
          rtDiff oAms dep.scheduledDeparture (rts.get ⟨k, hk⟩) ≤
            rtDiff oAms dep.scheduledDeparture (rts.get ⟨j, hj⟩)) := by
  obtain ⟨w1, w2, w3, w4⟩ :=
    bestMatchLoop_spec oAms dep.scheduledDeparture rts 0 none trivial
  constructor
  · intro hnone j hj
    unfold claimedIdx at hnone
    rcases hr : bestMatchLoop oAms dep.scheduledDeparture rts 0 none with _ | trip
    · have := w3 j hj
      rw [hr] at this
      exact this
    · rw [hr] at hnone
      cases hnone
  · intro k hk
    unfold claimedIdx at hk
    rcases hr : bestMatchLoop oAms dep.scheduledDeparture rts 0 none with _ | trip
    · rw [hr] at hk
      cases hk
    · rw [hr] at hk
      rw [hr] at w1 w3 w4
      rcases w4 with habs | ⟨j, hj, heq⟩
      · cases habs
      · injection heq with h'
        subst h'
        simp only [Option.map_some'] at hk
        injection hk with hk'
        have hkj : k = j := by omega
        subst hkj
        refine ⟨hj, ?_, ?_⟩
        · have := w1.2
          simpa using this
        · intro j' hj'
          have := w3 j' hj'
          simpa using this

/-- C1 witness for the corrected claim: at the counterexample query, the
first departure claims index 0, which is under the window and minimal. -/
theorem claimedIdx_spec_witness :
    ∃ hk : (0:Nat) < [c1Rt].length,
      rtDiff 0 c1Dep1.scheduledDeparture ([c1Rt].get ⟨0, hk⟩) < 600000 ∧
      ∀ j (hj : j < [c1Rt].length),
        rtDiff 0 c1Dep1.scheduledDeparture ([c1Rt].get ⟨0, hk⟩) ≤
          rtDiff 0 c1Dep1.scheduledDeparture ([c1Rt].get ⟨j, hj⟩) :=
  (claimedIdx_spec 0 [c1Rt] c1Dep1).2 0 (by decide)

/-- C3 fixture: the CXX line 80 direction 1 pass, scheduled 14:15 and
expected 14:20. -/
def c3Pass1 : OvApiPass :=
  ⟨"CXX", "80", "N080", 1, "Amsterdam Elandsgracht", 201, "55230110",
    "Halfweg, Station Halfweg-Zwanenburg", 52.3712, 4.7216,
    "", "2026-02-10T14:15:00", "", "2026-02-10T14:20:00", "DRIVING", "BUS"⟩

/-- C3 fixture: the CXX line 80 direction 2 pass, on time at 14:30. -/
def c3Pass2 : OvApiPass :=
  ⟨"CXX", "80", "N080", 2, "Zandvoort Centrum", 202, "55230110",
    "Halfweg, Station Halfweg-Zwanenburg", 52.3712, 4.7216,
    "", "2026-02-10T14:30:00", "", "2026-02-10T14:30:00", "PLANNED", "BUS"⟩

/-- C3 fixture: a GVB pass at the same stop, to be filtered out. -/
def c3Pass3 : OvApiPass :=
  ⟨"GVB", "22", "G022", 1, "Sloterdijk", 999, "55230110",
    "Halfweg, Station Halfweg-Zwanenburg", 52.3712, 4.7216,
    "", "2026-02-10T14:45:00", "", "2026-02-10T14:45:00", "PLANNED", "BUS"⟩

/-- C3 fixture: the N-prefixed night-line pass (planning code N286), to be
filtered out. -/
def c3Pass4 : OvApiPass :=
  ⟨"CXX", "80", "N286", 1, "Amsterdam Elandsgracht", 888, "55230110",
    "Halfweg", 52.3712, 4.7216,
    "", "2026-02-10T01:00:00", "", "2026-02-10T01:00:00", "PLANNED", "BUS"⟩

/-- C3 fixture: the upstream response carrying the four passes. -/
def c3Response : UpstreamResponse :=
  .httpResponse true 200
    [("55230110", some (.withPassesKey [c3Pass1, c3Pass2, c3Pass3, c3Pass4]))]

def c3Dep201 : Departure :=
  ⟨201, "2026-02-10T14:15:00", "2026-02-10T14:20:00", 5, "DRIVING", true,
    "Amsterdam Elandsgracht", 1⟩

def c3Dep202 : Departure :=
  ⟨202, "2026-02-10T14:30:00", "2026-02-10T14:30:00", 0, "PLANNED", false,
    "Zandvoort Centrum", 2⟩

/-- C3: on the four-pass fixture the fetcher keeps exactly the two CXX line
80 passes, computing a five-minute delay (flagged) for direction 1 and a
zero delay (unflagged) for direction 2, and the reconciliation per
direction yields exactly one merged departure each; the GVB journey 999 and
the night-line journey 888 appear in neither result.  The statement holds
for every fixed server and Amsterdam offset. -/
theorem fixture_reconciliation (oServ oAms : Int) :
    fetchDepartures "55230110" "now" c3Response = .ok
      ⟨some ⟨"Halfweg, Station Halfweg-Zwanenburg", "55230110", 52.3712, 4.7216⟩,
        [c3Dep201, c3Dep202], "now"⟩ ∧
    reconcileDepartures oServ oAms 1 0 [c3Dep201, c3Dep202] []
      = [⟨c3Dep201, "scheduled", none⟩] ∧
    reconcileDepartures oServ oAms 2 0 [c3Dep201, c3Dep202] []
      = [⟨c3Dep202, "scheduled", none⟩] ∧
    (∀ e ∈ reconcileDepartures oServ oAms 1 0 [c3Dep201, c3Dep202] [],
      e.dep.delayMinutes = 5 ∧ e.dep.isDelayed = true ∧
        e.dep.journeyNumber ≠ 999 ∧ e.dep.journeyNumber ≠ 888) ∧
    (∀ e ∈ reconcileDepartures oServ oAms 2 0 [c3Dep201, c3Dep202] [],
      e.dep.delayMinutes = 0 ∧ e.dep.isDelayed = false ∧
        e.dep.journeyNumber ≠ 999 ∧ e.dep.journeyNumber ≠ 888) := by
  have h1 : reconcileDepartures oServ oAms 1 0 [c3Dep201, c3Dep202] []
      = [⟨c3Dep201, "scheduled", none⟩] := rfl
  have h2 : reconcileDepartures oServ oAms 2 0 [c3Dep201, c3Dep202] []
      = [⟨c3Dep202, "scheduled", none⟩] := rfl
  refine ⟨by rfl, h1, h2, ?_, ?_⟩
  · intro e he
    rw [h1] at he
    rw [List.mem_singleton] at he
    subst he
    refine ⟨rfl, rfl, by decide, by decide⟩
  · intro e he
    rw [h2] at he
    rw [List.mem_singleton] at he
    subst he
    refine ⟨rfl, rfl, by decide, by decide⟩

theorem naiveMs_mod_1000 (dt : NaiveDateTime) : naiveMs dt % 1000 = 0 := by
  unfold naiveMs
  omega

theorem leaveByFor_offset_indep (oServ W : Int) (T : String) (dt : NaiveDateTime)
    (hp : parseNaive T = some dt) (hW : 0 < W) :
    leaveByFor oServ W T = leaveByFor 0 W T := by
  unfold leaveByFor jsParseLocalMs jsFormatLocal parseNaiveMs
  rw [if_neg (by omega), if_neg (by omega), hp]
  simp only [Option.map_some', Option.getD_some]
  have harg : naiveMs dt - oServ - W * 60000 + oServ = naiveMs dt - 0 - W * 60000 + 0 := by
    omega
  rw [harg]

/-- C6: every merged departure of a reconciliation query has a null leave-by
when the walk time is zero or negative; for a positive walk time W and a
well-formed expected time within the model range, the leave-by is exactly
the expected time minus W minutes on the naive timeline, rendered in the
same naive format (it re-parses to that value), contains no Z suffix, and
the rendered clock time does not shift with the server UTC offset. -/
theorem leaveBy_spec (oServ oAms direction walkTime : Int)
    (deps : List Departure) (rts : List RealtimeArrival) :
    ∀ e ∈ reconcileDepartures oServ oAms direction walkTime deps rts,
      (walkTime ≤ 0 → e.leaveBy = none) ∧
      (0 < walkTime →
        ∀ dt, parseNaive e.dep.expectedDeparture = some dt →
          0 ≤ naiveMs dt - walkTime * 60000 →
          naiveMs dt ≤ 250560000000000 →
          ∃ s, e.leaveBy = some s ∧
            parseNaiveMs s = some (naiveMs dt - walkTime * 60000) ∧
            'Z' ∉ s.toList ∧
            (∃ dt2, parseNaive s = some dt2) ∧
            leaveByFor oServ walkTime e.dep.expectedDeparture
              = leaveByFor 0 walkTime e.dep.expectedDeparture) := by
  intro e he
  unfold reconcileDepartures at he
  rw [List.mem_map] at he
  obtain ⟨p, hp, hpe⟩ := he
  have hlb : e.leaveBy = leaveByFor oServ walkTime e.dep.expectedDeparture := by
    rw [← hpe]
  constructor
  · intro hW
    rw [hlb]
    unfold leaveByFor
    rw [if_pos hW]
  · intro hW dt hparse h0 hb
    set T := e.dep.expectedDeparture with hT
    set v := naiveMs dt - walkTime * 60000 with hv
    have harg : jsParseLocalMs oServ T - walkTime * 60000 + oServ = v := by
      unfold jsParseLocalMs parseNaiveMs
      rw [hparse]
      simp only [Option.map_some', Option.getD_some]
      omega
    have hmod : v % 1000 = 0 := by
      have := naiveMs_mod_1000 dt
      omega
    have hroundtrip := parseNaiveMs_jsFormatLocal oServ
      (jsParseLocalMs oServ T - walkTime * 60000)
      (by omega) (by omega) (by rw [harg]; exact hmod)
    rw [harg] at hroundtrip
    refine ⟨jsFormatLocal oServ (jsParseLocalMs oServ T - walkTime * 60000), ?_, ?_, ?_, ?_, ?_⟩
    · rw [hlb]
      unfold leaveByFor
      rw [if_neg (by omega)]
    · exact hroundtrip
    · unfold jsFormatLocal ofNaiveMs
      exact Z_not_mem_renderNaive _
    · unfold parseNaiveMs at hroundtrip
      rcases hps : parseNaive (jsFormatLocal oServ
          (jsParseLocalMs oServ T - walkTime * 60000)) with _ | dt2
      · rw [hps] at hroundtrip
        cases hroundtrip
      · exact ⟨dt2, rfl⟩
    · exact leaveByFor_offset_indep oServ walkTime T dt hparse hW

/-- C6 witness data: one departure expected at 1970-01-02T03:04:05. -/
def c6Dep : Departure :=
  ⟨1, "1970-01-02T03:04:05", "1970-01-02T03:04:05", 0, "PLANNED", false,
    "Amsterdam Elandsgracht", 1⟩

def c6Dt : NaiveDateTime := ⟨⟨1970, 1, 2⟩, 3, 4, 5⟩

/-- C6 witness: a five-minute walk at server offset one hour produces the
expected leave-by for the concrete departure. -/
theorem leaveBy_spec_witness :
    ∃ s, (⟨c6Dep, "scheduled", leaveByFor 3600000 5 c6Dep.expectedDeparture⟩ :
        MergedDeparture).leaveBy = some s ∧
      parseNaiveMs s = some (naiveMs c6Dt - 5 * 60000) ∧
      'Z' ∉ s.toList ∧
      (∃ dt2, parseNaive s = some dt2) ∧
      leaveByFor 3600000 5 (⟨c6Dep, "scheduled",
          leaveByFor 3600000 5 c6Dep.expectedDeparture⟩ :
            MergedDeparture).dep.expectedDeparture
        = leaveByFor 0 5 (⟨c6Dep, "scheduled",
            leaveByFor 3600000 5 c6Dep.expectedDeparture⟩ :
              MergedDeparture).dep.expectedDeparture :=
  (leaveBy_spec 3600000 0 1 5 [c6Dep] []
      ⟨c6Dep, "scheduled", leaveByFor 3600000 5 c6Dep.expectedDeparture⟩
      (by decide)).2 (by decide) c6Dt (by decide) (by decide) (by decide)

/-- C9 witness: a 429 response errors, while an ok response with a null
payload for the code returns the empty result. -/
theorem fetchDepartures_error_iff_witness :
    (∃ msg, fetchDepartures "55230110" "now" (.httpResponse false 429 []) = .error msg) ∧
    fetchDepartures "55230110" "now" (.httpResponse true 200 [("55230110", none)])
      = .ok ⟨none, [], "now"⟩ := by
  constructor
  · exact (fetchDepartures_error_iff "55230110" "now"
      (.httpResponse false 429 [])).1.mpr (Or.inr ⟨429, [], rfl⟩)
  · exact (fetchDepartures_error_iff "55230110" "now"
      (.httpResponse true 200 [("55230110", none)])).2 200 _ rfl (Or.inr (by decide))

end Bustie
